import Mathlib

/-!
Verification of the `get-releasenote` changelog parser.

The repository consists of two near-duplicate Python modules:
`src/main.py` (class-based, `Parser` methods) and `src/src/main.py`
(function-based, `_parse_changes` and friends).  Python strings are
embedded as `List Char`; every function below is translated from the
source, mirroring its control flow step by step.  The dynamic heading
regular expression (built by `head_line.format(version=..., date=...,
name=...)`) is embedded as a structured template: a list of literal
pieces and the three placeholders; the compiled pattern's matching
semantics (leftmost match with backtracking, greedy quantifiers) is
implemented faithfully for the concrete sub-patterns the source
substitutes for the placeholders.
-/

namespace GetReleasenote

/-- Python `str.strip` whitespace set (ASCII part used by the tool). -/
def isPySpace (c : Char) : Bool :=
  c = ' ' || c = '\t' || c = '\n' || c = '\r' || c = '\x0b' || c = '\x0c'

/-- Python `str.strip`: drop leading and trailing whitespace. -/
def pystrip (s : List Char) : List Char :=
  ((s.dropWhile isPySpace).reverse.dropWhile isPySpace).reverse

/-- Python slice `s[a:b]` (for `0 ≤ a ≤ b ≤ len`). -/
def sliceLC (s : List Char) (a b : Nat) : List Char :=
  (s.take b).drop a

/-- Index of the first occurrence of `pat` in `s`, starting the count at `i`
(helper for `findSubstr`). -/
def findSubstrAux (pat : List Char) : List Char → Nat → Option Nat
  | s, i =>
    if pat.isPrefixOf s then some i
    else
      match s with
      | [] => none
      | _ :: t => findSubstrAux pat t (i + 1)

/-- Index of the first occurrence of `pat` as a substring of `s`
(the scan performed by Python `str.partition`). -/
def findSubstr (s pat : List Char) : Option Nat :=
  findSubstrAux pat s 0

/-- Numeric value of a digit string (used for version components). -/
def natOfDigits (ds : List Char) : Nat :=
  ds.foldl (fun n c => n * 10 + (c.toNat - '0'.toNat)) 0

/-! ## Model of `packaging.version` (external library)

`parse_version` and the `<` comparison come from the external
`packaging` library (PEP 440 versions); the spec treats them as a
provided capability.  The model below covers the grammar
`[N!]N(.N)*[{a|b|c|rc}N?][.postN?][.devN?]` and the PEP 440 comparison
key (release tuples compared with trailing zeros removed, pre/post/dev
ordered through infinity sentinels); version strings outside the
modelled grammar parse to `none` (the real library raises
`InvalidVersion`, likewise a failure). -/

structure PyVersion where
  epoch : Nat
  release : List Nat
  /-- pre-release phase (0 = a, 1 = b, 2 = c/rc) and number. -/
  pre : Option (Nat × Nat)
  post : Option Nat
  dev : Option Nat
deriving DecidableEq, Repr

/-- `N(.N)*` tail: parse `.N` groups while they are present.  The fuel
is an upper bound on the number of characters consumed. -/
def parseDotNats : Nat → List Char → List Nat × List Char
  | 0, s => ([], s)
  | fuel + 1, '.' :: rest =>
    let ds := rest.takeWhile Char.isDigit
    if ds.isEmpty then ([], '.' :: rest)
    else
      let p := parseDotNats fuel (rest.drop ds.length)
      (natOfDigits ds :: p.1, p.2)
  | _ + 1, s => ([], s)

/-- Optional pre-release segment `a|b|c|rc` followed by optional digits
(missing number defaults to 0, as in PEP 440). -/
def parsePreSeg : List Char → Option (Nat × Nat) × List Char
  | 'r' :: 'c' :: rest =>
    let ds := rest.takeWhile Char.isDigit
    (some (2, natOfDigits ds), rest.drop ds.length)
  | 'a' :: rest =>
    let ds := rest.takeWhile Char.isDigit
    (some (0, natOfDigits ds), rest.drop ds.length)
  | 'b' :: rest =>
    let ds := rest.takeWhile Char.isDigit
    (some (1, natOfDigits ds), rest.drop ds.length)
  | 'c' :: rest =>
    let ds := rest.takeWhile Char.isDigit
    (some (2, natOfDigits ds), rest.drop ds.length)
  | s => (none, s)

/-- Optional `.postN` segment. -/
def parsePostSeg : List Char → Option Nat × List Char
  | '.' :: 'p' :: 'o' :: 's' :: 't' :: rest =>
    let ds := rest.takeWhile Char.isDigit
    (some (natOfDigits ds), rest.drop ds.length)
  | s => (none, s)

/-- Optional `.devN` segment. -/
def parseDevSeg : List Char → Option Nat × List Char
  | '.' :: 'd' :: 'e' :: 'v' :: rest =>
    let ds := rest.takeWhile Char.isDigit
    (some (natOfDigits ds), rest.drop ds.length)
  | s => (none, s)

/-- Model of the external `packaging.version.parse` on the modelled
grammar; `none` models `InvalidVersion`. -/
def parse_version (s : List Char) : Option PyVersion :=
  let eds := s.takeWhile Char.isDigit
  let r0 := s.drop eds.length
  let ep : Nat × List Char :=
    match r0 with
    | '!' :: rest => if eds.isEmpty then (0, s) else (natOfDigits eds, rest)
    | _ => (0, s)
  let rds := ep.2.takeWhile Char.isDigit
  if rds.isEmpty then none
  else
    let p1 := parseDotNats ep.2.length (ep.2.drop rds.length)
    let p2 := parsePreSeg p1.2
    let p3 := parsePostSeg p2.2
    let p4 := parseDevSeg p3.2
    if p4.2.isEmpty then
      some ⟨ep.1, natOfDigits rds :: p1.1, p2.1, p3.1, p4.1⟩
    else none

/-- Release tuple with trailing zeros removed (PEP 440 comparison). -/
def rtrimZeros (l : List Nat) : List Nat :=
  (l.reverse.dropWhile (· = 0)).reverse

/-- Lexicographic comparison of release tuples (Python tuple `<`). -/
def cmpNatList : List Nat → List Nat → Ordering
  | [], [] => .eq
  | [], _ :: _ => .lt
  | _ :: _, [] => .gt
  | a :: as_, b :: bs =>
    match compare a b with
    | .eq => cmpNatList as_ bs
    | o => o

/-- Pre-release comparison key: rank 0 = negative infinity (dev release
with no pre/post), rank 1 = actual pre-release, rank 2 = infinity. -/
def preKey (v : PyVersion) : Nat × Nat × Nat :=
  match v.pre with
  | some (ph, n) => (1, ph, n)
  | none => if v.post = none && !(v.dev = none) then (0, 0, 0) else (2, 0, 0)

/-- Post-release comparison key (`none` compares below any number). -/
def postKey (v : PyVersion) : Nat × Nat :=
  match v.post with
  | none => (0, 0)
  | some n => (1, n)

/-- Dev-release comparison key (`none` compares above any number). -/
def devKey (v : PyVersion) : Nat × Nat :=
  match v.dev with
  | some n => (0, n)
  | none => (1, 0)

def cmpP2 : Nat × Nat → Nat × Nat → Ordering
  | (a1, a2), (b1, b2) => (compare a1 b1).then (compare a2 b2)

def cmpP3 : Nat × Nat × Nat → Nat × Nat × Nat → Ordering
  | (a1, a2), (b1, b2) => (compare a1 b1).then (cmpP2 a2 b2)

/-- PEP 440 comparison key ordering: epoch, then release (trailing
zeros removed), then pre/post/dev keys. -/
def cmpVer (x y : PyVersion) : Ordering :=
  ((compare x.epoch y.epoch).then
    (cmpNatList (rtrimZeros x.release) (rtrimZeros y.release))).then
    (((cmpP3 (preKey x) (preKey y)).then
      ((cmpP2 (postKey x) (postKey y)).then
        (cmpP2 (devKey x) (devKey y)))))

/-! ## Error taxonomy

Every failure in the source is a raised `ValueError` (or an
`InvalidVersion`, itself a `ValueError`, escaping from `parse_version`);
the constructors below stand for the distinct raise sites /
messages. -/

inductive Err where
  /-- Python `str.partition` with an empty separator raises
  `ValueError: empty separator` before any parsing happens. -/
  | emptySeparator
  /-- "Cannot find TOWNCRIER start mark (...)". -/
  | startMarkNotFound
  /-- "Cannot find TOWNCRIER version head mark (...)". -/
  | headMarkNotFound
  /-- `match.group("version")` on a pattern with no such group raises
  `IndexError`. -/
  | noVersionGroup
  /-- `parse_version` raised `InvalidVersion`. -/
  | invalidVersion
  /-- "The distribution version ... is older than ... Hint: push git
  tag with the latest version." -/
  | versionOlder
  /-- "The distribution version ... is younger than ... Hint: run
  'towncrier' again." -/
  | versionYounger
  /-- "fix_issue_regex and fix_issue_repl should be used together". -/
  | fixIssueConfig
  /-- "Git head '...' doesn't point at a tag". -/
  | gitHeadNotTag
  /-- "Git tag '...' mismatches with version '...'". -/
  | gitTagMismatch
  /-- "No one of 'version', 'version_file' is set". -/
  | noVersionConfigured
  /-- "version and version_file arguments are ambiguous". -/
  | ambiguousVersion
  /-- "Unable to determine version in file '...'". -/
  | versionNotFoundInFile
deriving DecidableEq, Repr

/-- `check_changes_version` (src/src/main.py lines 105-125; identical
to `Parser.check_changes_version`, src/main.py lines 60-78): raw string
equality short-circuits, otherwise both sides are parsed and ordered. -/
def check_changes_version (declared_version found_version : List Char) :
    Except Err Unit :=
  if declared_version = found_version then .ok ()
  else
    match parse_version declared_version with
    | none => .error .invalidVersion
    | some dver =>
      match parse_version found_version with
      | none => .error .invalidVersion
      | some fver =>
        if cmpVer dver fver = .lt then .error .versionOlder
        else .error .versionYounger

/-- `check_head` (src/src/main.py lines 155-163; identical to
`Parser.check_head`, src/main.py lines 50-58).  An absent / empty ref
is modelled by `[]`. -/
def check_head (version head : List Char) : Except Err Unit :=
  if head = [] then .ok ()
  else
    let pre := "refs/tags/".toList
    if !(pre.isPrefixOf head) then .error .gitHeadNotTag
    else
      let tag := head.drop pre.length
      if tag = version || tag = 'v' :: version then .ok ()
      else .error .gitTagMismatch

/-! ## The heading template and its compiled pattern

`head_line` is a template with `{version}`, `{date}`, `{name}`
placeholders; `str.format` substitutes a regex for the first two and
the literal project name for the third, and the result is compiled.
A template is embedded as a list of `TElem`; the substitution result as
a list of `RElem` ("compiled" elements).  The two implementations
substitute different regexes for `{version}`:
`r"(?P<version>[0-9][0-9.abcr]+(\.post[0-9]+)?)"` in
`_parse_changes` (src/src/main.py line 77) versus
`r"\[(?P<version>[0-9][0-9.abcr]+(\.post[0-9]+)?)\]"` in
`Parser.parse` (src/main.py line 124). -/

inductive TElem where
  /-- A literal run of the template (assumed free of regex
  metacharacters, as in every published use of the action). -/
  | lit : List Char → TElem
  /-- The `{version}` placeholder. -/
  | version : TElem
  /-- The `{date}` placeholder (substituted by `r"\d+-\d+-\d+"`). -/
  | date : TElem
  /-- The `{name}` placeholder (substituted by the literal name). -/
  | pname : TElem
deriving DecidableEq, Repr

inductive RElem where
  | lit : List Char → RElem
  /-- `(?P<version>[0-9][0-9.abcr]+(\.post[0-9]+)?)`. -/
  | vtoken : RElem
  /-- `\[(?P<version>[0-9][0-9.abcr]+(\.post[0-9]+)?)\]`. -/
  | vtokenBr : RElem
  /-- `\d+-\d+-\d+`. -/
  | date : RElem
deriving DecidableEq, Repr

/-- `head_line.format(...)` as performed by `_parse_changes`
(src/src/main.py lines 75-82): bare version group. -/
def formatFn (hl : List TElem) (nm : List Char) : List RElem :=
  hl.map fun e =>
    match e with
    | .lit cs => .lit cs
    | .version => .vtoken
    | .date => .date
    | .pname => .lit nm

/-- `head_line.format(...)` as performed by `Parser.parse`
(src/main.py lines 122-129): version group wrapped in literal
square brackets. -/
def formatCls (hl : List TElem) (nm : List Char) : List RElem :=
  hl.map fun e =>
    match e with
    | .lit cs => .lit cs
    | .version => .vtokenBr
    | .date => .date
    | .pname => .lit nm

/-- Character class `[0-9.abcr]`. -/
def isVChar (c : Char) : Bool :=
  c.isDigit || c = '.' || c = 'a' || c = 'b' || c = 'c' || c = 'r'

/-- Length of the maximal digit run of `s` starting at `i`. -/
def digitRun (s : List Char) (i : Nat) : Nat :=
  ((s.drop i).takeWhile Char.isDigit).length

/-- Length of the maximal `[0-9.abcr]` run of `s` starting at `i`. -/
def vcharRun (s : List Char) (i : Nat) : Nat :=
  ((s.drop i).takeWhile isVChar).length

/-- End positions that `(\.post[0-9]+)` can reach when matching at `j`,
in the backtracking order of the regex engine (greedy `[0-9]+`: longest
digit run first, down to one digit). -/
def postCands (s : List Char) (j : Nat) : List Nat :=
  if (s.drop j).take 5 = ['.', 'p', 'o', 's', 't'] then
    let m := digitRun s (j + 5)
    (List.range m).map (fun d => j + 5 + (m - d))
  else []

/-- End positions the version token
`[0-9][0-9.abcr]+(\.post[0-9]+)?` can reach when matching at `i`, in
backtracking order: the greedy run `[0-9.abcr]+` from longest to
shortest, and for each run length the optional `.postN` group before
its empty alternative. -/
def tokenCands (s : List Char) (i : Nat) : List Nat :=
  match s.get? i with
  | some c =>
    if c.isDigit then
      let r := vcharRun s (i + 1)
      (List.range r).flatMap (fun d =>
        let k := r - d
        postCands s (i + 1 + k) ++ [i + 1 + k])
    else []
  | none => []

/-- End positions `\d+-\d+-\d+` can reach when matching at `i`: the
first two digit runs admit no backtracking (a shorter run would have to
be followed by `-`, but every run character is a digit), the final one
backtracks from longest to shortest. -/
def dateCands (s : List Char) (i : Nat) : List Nat :=
  let d1 := digitRun s i
  if d1 = 0 then []
  else if s.get? (i + d1) = some '-' then
    let j := i + d1 + 1
    let d2 := digitRun s j
    if d2 = 0 then []
    else if s.get? (j + d2) = some '-' then
      let j2 := j + d2 + 1
      let d3 := digitRun s j2
      (List.range d3).map (fun d => j2 + (d3 - d))
    else []
  else []

/-- Candidate `(end, version-group span)` pairs for one compiled
element matching at `i`, in backtracking order. -/
def elemCands (e : RElem) (s : List Char) (i : Nat) :
    List (Nat × Option (Nat × Nat)) :=
  match e with
  | .lit cs =>
    if cs.isPrefixOf (s.drop i) then [(i + cs.length, none)] else []
  | .vtoken => (tokenCands s i).map (fun t => (t, some (i, t)))
  | .vtokenBr =>
    if s.get? i = some '[' then
      (tokenCands s (i + 1)).flatMap (fun t =>
        if s.get? t = some ']' then [(t + 1, some (i + 1, t))] else [])
    else []
  | .date => (dateCands s i).map (fun t => (t, none))

/-- First defined version-group span. -/
def mergeG : Option (Nat × Nat) → Option (Nat × Nat) → Option (Nat × Nat)
  | some v, _ => some v
  | none, g => g

/-- Backtracking matcher for a compiled pattern anchored at position
`i`: try each candidate of the first element in order and match the
rest of the pattern after it; the first full success wins (Python
regex backtracking order).  Returns the match end and the span of the
`version` group.  The fuel argument only bounds the recursion depth;
one element is consumed per step, so `pat.length + 1` is always
enough. -/
def matchGo (s : List Char) : Nat → List RElem → Nat →
    Option (Nat × Option (Nat × Nat))
  | 0, _, _ => none
  | _ + 1, [], i => some (i, none)
  | fuel + 1, e :: rest, i =>
    (elemCands e s i).findSome? (fun c =>
      match matchGo s fuel rest c.1 with
      | some (fin, g2) => some (fin, mergeG c.2 g2)
      | none => none)

/-- `pattern.match(s)`-style anchored match at position `i`. -/
def rmatch (s : List Char) (pat : List RElem) (i : Nat) :
    Option (Nat × Option (Nat × Nat)) :=
  matchGo s (pat.length + 1) pat i

/-- `pattern.search(s, pos)`: leftmost position `≥ pos` at which the
pattern matches; returns `(start, end, version-group span)`. -/
def rsearch (pat : List RElem) (s : List Char) (pos : Nat) :
    Option (Nat × Nat × Option (Nat × Nat)) :=
  (List.range' pos (s.length + 1 - pos)).findSome? (fun i =>
    match rmatch s pat i with
    | some (e, g) => some (i, e, g)
    | none => none)

/-! ## The extraction pipeline

`re.sub(fix_issue_regex, fix_issue_repl, msg)` performs a fully
general regex substitution; the pipeline only ever applies it when
`fix_issue_regex` is non-empty, so the substitution primitive is
abstracted as a function argument `subFn` (taking the pattern, the
replacement, and the text). -/

/-- The identity substitution primitive (what any `subFn` behaves like
when the step is skipped). -/
def idSubst : List Char → List Char → List Char → List Char :=
  fun _ _ t => t

/-- The `if fix_issue_regex: msg = re.sub(...)` step (src/src/main.py
lines 100-101, src/main.py lines 147-148). -/
def applyFix (fix_issue_regex fix_issue_repl : List Char)
    (subFn : List Char → List Char → List Char → List Char)
    (msg : List Char) : List Char :=
  if fix_issue_regex ≠ [] then subFn fix_issue_regex fix_issue_repl msg
  else msg

/-- Steps of `_parse_changes` after the start-mark split (src/src/main.py
lines 74-102): anchored heading match, version-group extraction, version
cross-check, unanchored search for the next heading, slicing, optional
substitution, final strip.  `pat` is the compiled heading pattern. -/
def parseFromMsg (msg version : List Char) (pat : List RElem)
    (fix_issue_regex fix_issue_repl : List Char)
    (subFn : List Char → List Char → List Char → List Char) :
    Except Err (List Char) :=
  match rmatch msg pat 0 with
  | none => .error .headMarkNotFound
  | some (e1, g) =>
    match g with
    | none => .error .noVersionGroup
    | some (a, b) =>
      match check_changes_version version (sliceLC msg a b) with
      | .error e => .error e
      | .ok _ =>
        let body :=
          match rsearch pat msg e1 with
          | some (s2, _, _) => sliceLC msg e1 s2
          | none => msg.drop e1
        .ok (pystrip (applyFix fix_issue_regex fix_issue_repl subFn body))

/-- `_parse_changes` (src/src/main.py lines 56-102): split on the first
occurrence of `start_line` (Python `str.partition`; an empty separator
is itself a `ValueError`), strip, then `parseFromMsg` with the
function-based instantiation of the heading template. -/
def _parse_changes (changes version start_line : List Char)
    (head_line : List TElem) (fix_issue_regex fix_issue_repl nm : List Char)
    (subFn : List Char → List Char → List Char → List Char) :
    Except Err (List Char) :=
  if start_line = [] then .error .emptySeparator
  else
    match findSubstr changes start_line with
    | none => .error .startMarkNotFound
    | some i =>
      parseFromMsg (pystrip (changes.drop (i + start_line.length))) version
        (formatFn head_line nm) fix_issue_regex fix_issue_repl subFn

/-- `Parser.parse` (src/main.py lines 92-149): validates the fix-issue
pair, checks the git ref, then runs the same pipeline with the
class-based instantiation of the heading template (version group in
literal square brackets).  `ctxVersion` is `ctx.version`; the changelog
file's content is passed directly (`ctx.read_file` is external I/O). -/
def Parser_parse (changes ctxVersion start_line : List Char)
    (head_line : List TElem)
    (fix_issue_regex fix_issue_repl input_check_ref nm : List Char)
    (subFn : List Char → List Char → List Char → List Char) :
    Except Err (List Char) :=
  if (fix_issue_regex ≠ [] ∧ fix_issue_repl = []) ∨
      (fix_issue_regex = [] ∧ fix_issue_repl ≠ []) then
    .error .fixIssueConfig
  else
    match check_head ctxVersion input_check_ref with
    | .error e => .error e
    | .ok _ =>
      if start_line = [] then .error .emptySeparator
      else
        match findSubstr changes start_line with
        | none => .error .startMarkNotFound
        | some i =>
          parseFromMsg (pystrip (changes.drop (i + start_line.length)))
            ctxVersion (formatCls head_line nm) fix_issue_regex
            fix_issue_repl subFn

/-! ## `find_version` and `VERSION_RE`

`VERSION_RE` (src/src/main.py lines 128-134, src/main.py lines 12-18)
is the MULTILINE pattern
`^(?:__version__|version) *= *(["'])((?:(?!\1).)*)\1`.
The two alternatives can never both match at one position (one starts
with `_`, the other with `v`), ` *` over spaces followed by `=` admits
no backtracking, and the value run `(?:(?!\1).)*` (any character other
than the opening quote or a newline) stops exactly at the quote, so the
pattern is matched deterministically position by position; `search`
takes the leftmost line start where it succeeds. -/

/-- The ` *= *(["'])((?:(?!\1).)*)\1` part of `VERSION_RE`, applied to
the text following the variable name (a position is represented by the
suffix starting there); returns the quoted value.  The greedy value
run `(?:(?!\1).)*` (any character other than the opening quote or a
newline) necessarily stops at the closing quote, so no backtracking
arises. -/
def matchEqQuoted (t : List Char) : Option (List Char) :=
  let t1 := t.dropWhile (· = ' ')
  match t1 with
  | '=' :: t2 =>
    let t3 := t2.dropWhile (· = ' ')
    match t3 with
    | q :: t4 =>
      if q = '"' || q = '\'' then
        let v := t4.takeWhile (fun c => c ≠ q ∧ c ≠ '\n')
        if (t4.drop v.length).head? = some q then some v else none
      else none
    | [] => none
  | _ => none

/-- One anchored attempt of `VERSION_RE` at position `i`: the
`__version__` alternative first, then `version` (the two can never
match at the same position, so no cross-alternative backtracking
arises). -/
def matchVersionAssign (s : List Char) (i : Nat) : Option (List Char) :=
  if "__version__".toList.isPrefixOf (s.drop i) then
    matchEqQuoted ((s.drop i).drop 11)
  else if "version".toList.isPrefixOf (s.drop i) then
    matchEqQuoted ((s.drop i).drop 7)
  else none

/-- MULTILINE `^`: start of the text or the position directly after a
newline. -/
def lineStart (s : List Char) (i : Nat) : Bool :=
  i == 0 || s.get? (i - 1) == some '\n'

/-- `VERSION_RE.search(txt)`: the value captured at the leftmost line
start where the pattern matches. -/
def findVersionInText (txt : List Char) : Option (List Char) :=
  (List.range (txt.length + 1)).findSome? (fun i =>
    if lineStart txt i then matchVersionAssign txt i else none)

/-- `find_version` (src/src/main.py lines 137-147; identical to
`Parser.find_version`, src/main.py lines 80-90).  `txt` stands for the
content `ctx.read_file(version_file)` would return (file I/O is
external); absent arguments are the empty string, as in the action's
environment interface. -/
def find_version (txt version_file version : List Char) :
    Except Err (List Char) :=
  if version = [] ∧ version_file = [] then .error .noVersionConfigured
  else if version ≠ [] then
    if version_file ≠ [] then .error .ambiguousVersion
    else .ok version
  else
    match findVersionInText txt with
    | some v => .ok v
    | none => .error .versionNotFoundInFile

/-- The text retained for heading search once the start mark is found
at index `i`: everything strictly after the mark, stripped
(`changes.partition(start_line)` then `msg.strip()`). -/
def retainedMsg (changes start_line : List Char) (i : Nat) : List Char :=
  pystrip (changes.drop (i + start_line.length))

/-- Wrap every `{version}` placeholder of a template in literal square
brackets.  `formatCls hl nm` and `formatFn (bracketize hl) nm` denote
the same pattern: this is exactly the difference between the two
implementations' instantiations. -/
def bracketize (hl : List TElem) : List TElem :=
  hl.flatMap (fun e =>
    match e with
    | .version => [.lit ['['], .version, .lit [']']]
    | e => [e])

/-! ## Helper lemmas -/

/-- `str.strip` only removes characters at the two ends: the result is
an infix of the input. -/
theorem pystrip_infix (s : List Char) : pystrip s <:+: s := by
  have h1 : s.dropWhile isPySpace <:+ s := List.dropWhile_suffix _
  have h2 : pystrip s <+: s.dropWhile isPySpace := by
    rw [← List.reverse_suffix]
    simpa [pystrip] using List.dropWhile_suffix (l := (s.dropWhile isPySpace).reverse) isPySpace
  exact h2.isInfix.trans h1.isInfix

theorem findSubstrAux_nil (pat : List Char) (i : Nat) :
    findSubstrAux pat [] i = if pat.isPrefixOf [] then some i else none := rfl

theorem findSubstrAux_cons (pat : List Char) (c : Char) (t : List Char) (i : Nat) :
    findSubstrAux pat (c :: t) i =
      if pat.isPrefixOf (c :: t) then some i else findSubstrAux pat t (i + 1) := rfl

theorem findSubstrAux_none (pat : List Char) :
    ∀ (s : List Char) (i : Nat), findSubstrAux pat s i = none ↔
      ∀ j, ¬ (pat.isPrefixOf (s.drop j) = true)
  | [], i => by
    rw [findSubstrAux_nil]
    by_cases hp : pat.isPrefixOf ([] : List Char) = true
    · rw [if_pos hp]
      constructor
      · intro h; exact absurd h (by simp)
      · intro h
        have h0 := h 0
        rw [List.drop_nil] at h0
        exact absurd hp h0
    · rw [if_neg hp]
      constructor
      · intro _ j
        rw [List.drop_nil]
        exact hp
      · intro _; rfl
  | c :: t, i => by
    rw [findSubstrAux_cons]
    by_cases hp : pat.isPrefixOf (c :: t) = true
    · rw [if_pos hp]
      constructor
      · intro h; exact absurd h (by simp)
      · intro h
        have h0 := h 0
        rw [List.drop_zero] at h0
        exact absurd hp h0
    · rw [if_neg hp]
      rw [findSubstrAux_none pat t (i + 1)]
      constructor
      · intro h j
        match j with
        | 0 =>
          rw [List.drop_zero]
          exact hp
        | j + 1 => exact h j
      · intro h j
        exact h (j + 1)

theorem findSubstrAux_some (pat : List Char) :
    ∀ (s : List Char) (i0 i : Nat), findSubstrAux pat s i0 = some i →
      ∃ k, i = i0 + k ∧ pat.isPrefixOf (s.drop k) = true ∧
        ∀ j, j < k → ¬ (pat.isPrefixOf (s.drop j) = true)
  | [], i0, i => by
    rw [findSubstrAux_nil]
    by_cases hp : pat.isPrefixOf ([] : List Char) = true
    · rw [if_pos hp]
      intro h
      injection h with h
      refine ⟨0, h.symm, ?_, by omega⟩
      rw [List.drop_nil]
      exact hp
    · rw [if_neg hp]
      intro h
      exact absurd h (by simp)
  | c :: t, i0, i => by
    rw [findSubstrAux_cons]
    by_cases hp : pat.isPrefixOf (c :: t) = true
    · rw [if_pos hp]
      intro h
      injection h with h
      refine ⟨0, h.symm, ?_, by omega⟩
      rw [List.drop_zero]
      exact hp
    · rw [if_neg hp]
      intro h
      obtain ⟨k, hk, hpre, hmin⟩ := findSubstrAux_some pat t (i0 + 1) i h
      refine ⟨k + 1, by omega, hpre, ?_⟩
      intro j hj
      match j with
      | 0 =>
        rw [List.drop_zero]
        exact hp
      | j + 1 => exact hmin j (by omega)

/-- `findSubstr` finds nothing exactly when the pattern is not an
infix of the text. -/
theorem findSubstr_none_iff (s pat : List Char) :
    findSubstr s pat = none ↔ ¬ pat <:+: s := by
  rw [findSubstr, findSubstrAux_none]
  constructor
  · intro h hinf
    obtain ⟨t, hpre, hsuf⟩ := List.infix_iff_prefix_suffix.mp hinf
    obtain ⟨u, hu⟩ := hsuf
    have : pat.isPrefixOf (s.drop u.length) = true := by
      rw [← hu, List.drop_left, List.isPrefixOf_iff_prefix]
      exact hpre
    exact h u.length this
  · intro h j hj
    rw [List.isPrefixOf_iff_prefix] at hj
    exact h (hj.isInfix.trans (List.drop_suffix j s).isInfix)

/-- `findSubstr` returns the index of the first occurrence. -/
theorem findSubstr_some (s pat : List Char) (i : Nat)
    (h : findSubstr s pat = some i) :
    pat.isPrefixOf (s.drop i) = true ∧
      ∀ j, j < i → ¬ (pat.isPrefixOf (s.drop j) = true) := by
  obtain ⟨k, hk, hpre, hmin⟩ := findSubstrAux_some pat s 0 i h
  have hk2 : k = i := by omega
  subst hk2
  exact ⟨hpre, hmin⟩

/-- Characters inside a `takeWhile` run satisfy the predicate. -/
theorem takeWhile_run_pred (p : Char → Bool) :
    ∀ (l : List Char) (j : Nat), j < (l.takeWhile p).length →
      ∃ c, l.get? j = some c ∧ p c = true
  | [], j => by simp
  | c :: t, j => by
    by_cases hc : p c = true
    · rw [List.takeWhile_cons_of_pos hc]
      match j with
      | 0 => intro _; exact ⟨c, rfl, hc⟩
      | j + 1 =>
        intro h
        simpa using takeWhile_run_pred p t j (by simpa using h)
    · rw [List.takeWhile_cons_of_neg hc]
      simp

/-- `takeWhile` over a run of satisfying characters closed off by a
failing one returns exactly the run. -/
theorem takeWhile_append_run (p : Char → Bool) (q : Char) (rest : List Char)
    (hq : p q = false) :
    ∀ (v : List Char), (∀ c ∈ v, p c = true) →
      (v ++ q :: rest).takeWhile p = v
  | [], _ => by simp [List.takeWhile_cons, hq]
  | c :: t, hv => by
    have hc : p c = true := hv c (by simp)
    simp only [List.cons_append, List.takeWhile_cons_of_pos hc]
    rw [takeWhile_append_run p q rest hq t (fun d hd => hv d (by simp [hd]))]

/-- `check_changes_version` on identical raw strings. -/
theorem check_changes_version_self (v : List Char) :
    check_changes_version v v = .ok () := by
  simp [check_changes_version]

/-- The three error constructors `check_changes_version` can produce. -/
theorem check_changes_version_errors (d f : List Char) (e : Err)
    (h : check_changes_version d f = .error e) :
    e = .invalidVersion ∨ e = .versionOlder ∨ e = .versionYounger := by
  unfold check_changes_version at h
  split at h
  · exact absurd h (by simp)
  · split at h
    · simp_all
    · split at h
      · simp_all
      · split at h <;> simp_all

/-- `parseFromMsg` never reports the start-mark error (that raise site
is before it in the pipeline). -/
theorem parseFromMsg_ne_startMark (msg version : List Char)
    (pat : List RElem) (frx frp : List Char)
    (subFn : List Char → List Char → List Char → List Char) :
    parseFromMsg msg version pat frx frp subFn ≠ .error .startMarkNotFound := by
  cases hm : rmatch msg pat 0 with
  | none => simp [parseFromMsg, hm]
  | some p =>
    obtain ⟨e1, g⟩ := p
    cases g with
    | none => simp [parseFromMsg, hm]
    | some ab =>
      obtain ⟨a, b⟩ := ab
      cases hc : check_changes_version version (sliceLC msg a b) with
      | error e =>
        simp only [parseFromMsg, hm, hc]
        intro hcontra
        injection hcontra with hcon
        rcases check_changes_version_errors _ _ _ hc with h1 | h1 | h1 <;> simp_all
      | ok u => simp [parseFromMsg, hm, hc]

/-! ## Claim theorems -/

/-- C2: for identical raw version strings `check_changes_version`
returns normally; when the raw texts differ and the declared version
parses strictly smaller than the found one it fails with the
"push git tag with the latest version" error, and when the declared
version parses strictly greater it fails with the "run 'towncrier'
again" error. -/
theorem check_changes_version_ordering (d f : List Char) :
    (d = f → check_changes_version d f = .ok ())
  ∧ (d ≠ f → ∀ dv fv : PyVersion,
      parse_version d = some dv → parse_version f = some fv →
      (cmpVer dv fv = .lt → check_changes_version d f = .error .versionOlder)
    ∧ (cmpVer dv fv = .gt → check_changes_version d f = .error .versionYounger)) := by
  constructor
  · intro h
    subst h
    exact check_changes_version_self d
  · intro hne dv fv hd hf
    constructor
    · intro hlt
      simp [check_changes_version, hne, hd, hf, hlt]
    · intro hgt
      simp [check_changes_version, hne, hd, hf, hgt]

/-- Witness for C2 at the spec's example: declared `"0.9.0"` against
found `"1.0.0"` advises pushing the tag; the reverse advises running
towncrier again. -/
theorem check_changes_version_ordering_witness :
    check_changes_version "0.9.0".toList "1.0.0".toList = .error .versionOlder
  ∧ check_changes_version "1.0.0".toList "0.9.0".toList = .error .versionYounger := by
  constructor
  · exact ((check_changes_version_ordering "0.9.0".toList "1.0.0".toList).2
      (by decide) ⟨0, [0, 9, 0], none, none, none⟩ ⟨0, [1, 0, 0], none, none, none⟩
      (by decide) (by decide)).1 (by decide)
  · exact ((check_changes_version_ordering "1.0.0".toList "0.9.0".toList).2
      (by decide) ⟨0, [1, 0, 0], none, none, none⟩ ⟨0, [0, 9, 0], none, none, none⟩
      (by decide) (by decide)).2 (by decide)

/-- C3: raw string equality is the only route to the silent-success
outcome of `check_changes_version`; a pair with different raw texts
never returns normally, and in particular when both parse to the same
ordered value the fall-through `else` branch reports the
"younger / run towncrier" error. -/
theorem check_changes_version_raw_equal_only (d f : List Char) :
    (check_changes_version d f = .ok () ↔ d = f)
  ∧ (∀ dv fv : PyVersion, d ≠ f →
      parse_version d = some dv → parse_version f = some fv →
      cmpVer dv fv = .eq → check_changes_version d f = .error .versionYounger) := by
  constructor
  · constructor
    · intro h
      by_contra hne
      unfold check_changes_version at h
      rw [if_neg hne] at h
      split at h
      · exact Except.noConfusion h
      · split at h
        · exact Except.noConfusion h
        · split at h <;> exact Except.noConfusion h
    · intro h
      subst h
      exact check_changes_version_self d
  · intro dv fv hne hd hf heq
    have : ¬ cmpVer dv fv = .lt := by rw [heq]; simp
    simp [check_changes_version, hne, hd, hf, this]

/-- Witness for C3 at the spec's example: `"1.0"` and `"1.0.0"` parse
to the same ordered value but differ as raw strings, so the comparison
does not return normally (it lands in the fall-through branch). -/
theorem check_changes_version_raw_equal_only_witness :
    check_changes_version "1.0".toList "1.0.0".toList = .error .versionYounger :=
  (check_changes_version_raw_equal_only "1.0".toList "1.0.0".toList).2
    ⟨0, [1, 0], none, none, none⟩ ⟨0, [1, 0, 0], none, none, none⟩
    (by decide) (by decide) (by decide) (by decide)

/-- C7: `check_head` is a no-op for an absent ref, rejects every ref
without the `refs/tags/` prefix, and otherwise accepts exactly the tag
equal to the version or to `"v" + version`; including the three spec
examples. -/
theorem check_head_spec :
    (∀ v : List Char, check_head v [] = .ok ())
  ∧ (∀ v h : List Char, h ≠ [] → ¬ ("refs/tags/".toList.isPrefixOf h = true) →
      check_head v h = .error .gitHeadNotTag)
  ∧ (∀ v tag : List Char, (tag = v ∨ tag = 'v' :: v) →
      check_head v ("refs/tags/".toList ++ tag) = .ok ())
  ∧ (∀ v tag : List Char, tag ≠ v → tag ≠ 'v' :: v →
      check_head v ("refs/tags/".toList ++ tag) = .error .gitTagMismatch)
  ∧ check_head "1.2.3".toList "refs/tags/v1.2.3".toList = .ok ()
  ∧ check_head "1.2.3".toList "refs/heads/main".toList = .error .gitHeadNotTag
  ∧ check_head "1.2.3".toList "refs/tags/1.2.4".toList = .error .gitTagMismatch := by
  refine ⟨fun v => rfl, ?_, ?_, ?_, rfl, rfl, rfl⟩
  · intro v h hne hpre
    have hb : ("refs/tags/".toList.isPrefixOf h) = false := by
      cases hx : "refs/tags/".toList.isPrefixOf h
      · rfl
      · exact absurd hx hpre
    unfold check_head
    rw [if_neg hne]
    dsimp only
    rw [hb]
    rfl
  · intro v tag htag
    have hne : "refs/tags/".toList ++ tag ≠ [] := by simp
    have hpre : "refs/tags/".toList.isPrefixOf ("refs/tags/".toList ++ tag) = true := by
      rw [List.isPrefixOf_iff_prefix]
      exact List.prefix_append _ _
    have hdrop : ("refs/tags/".toList ++ tag).drop 10 = tag := by
      simpa using List.drop_left "refs/tags/".toList tag
    rcases htag with h | h <;> simp [check_head, hne, hpre, hdrop, h]
  · intro v tag h1 h2
    have hne : "refs/tags/".toList ++ tag ≠ [] := by simp
    have hpre : "refs/tags/".toList.isPrefixOf ("refs/tags/".toList ++ tag) = true := by
      rw [List.isPrefixOf_iff_prefix]
      exact List.prefix_append _ _
    have hdrop : ("refs/tags/".toList ++ tag).drop 10 = tag := by
      simpa using List.drop_left "refs/tags/".toList tag
    simp [check_head, hne, hpre, hdrop, h1, h2]

/-- Witness for C7: the general tag-acceptance clause applied at
version `1.2.3` with tag `v1.2.3`. -/
theorem check_head_spec_witness :
    check_head "1.2.3".toList ("refs/tags/".toList ++ "v1.2.3".toList) = .ok () :=
  check_head_spec.2.2.1 "1.2.3".toList "v1.2.3".toList (Or.inr (by decide))

/-- C9: with both fix-issue parameters absent the substitution step is
the identity — the `re.sub` primitive is never consulted, so the
extracted note is the trimmed section body unchanged whatever the
substitution primitive would have done. -/
theorem fix_issue_absent_identity :
    (∀ (subFn : List Char → List Char → List Char → List Char)
       (frp body : List Char), applyFix [] frp subFn body = body)
  ∧ (∀ (changes version sl : List Char) (hl : List TElem) (nm : List Char)
       (subFn : List Char → List Char → List Char → List Char),
      _parse_changes changes version sl hl [] [] nm subFn
        = _parse_changes changes version sl hl [] [] nm idSubst) :=
  ⟨fun _ _ _ => rfl, fun _ _ _ _ _ _ => rfl⟩

/-- C6: extraction fails with the start-mark structure error exactly
when `start_line` does not occur as a literal substring of the
changelog; when it does occur (and is non-empty, so that Python
`partition` is defined), the pipeline continues on everything strictly
after the first occurrence, stripped. -/
theorem start_mark_spec (changes version sl : List Char) (hl : List TElem)
    (frx frp nm : List Char)
    (subFn : List Char → List Char → List Char → List Char) :
    (_parse_changes changes version sl hl frx frp nm subFn
        = .error .startMarkNotFound ↔ ¬ sl <:+: changes)
  ∧ (∀ i : Nat, sl ≠ [] → findSubstr changes sl = some i →
      _parse_changes changes version sl hl frx frp nm subFn
          = parseFromMsg (retainedMsg changes sl i) version
              (formatFn hl nm) frx frp subFn
        ∧ sl.isPrefixOf (changes.drop i) = true
        ∧ ∀ j, j < i → ¬ (sl.isPrefixOf (changes.drop j) = true)) := by
  constructor
  · by_cases hsl : sl = []
    · subst hsl
      simp only [_parse_changes, if_pos rfl]
      constructor
      · intro h
        exact absurd h (by simp)
      · intro h
        exact absurd List.nil_infix h
    · cases hf : findSubstr changes sl with
      | none =>
        simp only [_parse_changes, if_neg hsl, hf]
        rw [findSubstr_none_iff] at hf
        simp [hf]
      | some i =>
        simp only [_parse_changes, if_neg hsl, hf]
        have h1 := parseFromMsg_ne_startMark
          (pystrip (changes.drop (i + sl.length))) version (formatFn hl nm)
          frx frp subFn
        have h2 : sl <:+: changes := by
          have := (findSubstr_some changes sl i hf).1
          rw [List.isPrefixOf_iff_prefix] at this
          exact this.isInfix.trans (List.drop_suffix i changes).isInfix
        simp [h1, h2]
  · intro i hsl hf
    refine ⟨?_, (findSubstr_some changes sl i hf).1,
      (findSubstr_some changes sl i hf).2⟩
    simp only [_parse_changes, if_neg hsl, hf, retainedMsg]

/-- Witness for C6: the start mark `"S"` occurs at index 1 of `"xSy"`,
and the pipeline continues on the strip of everything after it. -/
theorem start_mark_spec_witness :
    _parse_changes "xSy".toList "1.0".toList "S".toList [TElem.version]
        [] [] [] idSubst
      = parseFromMsg (retainedMsg "xSy".toList "S".toList 1) "1.0".toList
          (formatFn [TElem.version] []) [] [] idSubst :=
  ((start_mark_spec "xSy".toList "1.0".toList "S".toList [TElem.version]
      [] [] [] idSubst).2 1 (by decide) (by decide)).1

/-- C1: on a changelog whose start mark is followed by a heading match
(anchored, as the code requires) with a version group agreeing with the
declared version, and at least one further match of the heading
pattern, extraction returns exactly the text strictly between the end
of the first match and the start of the second, trimmed; every
character of the result comes from before the second heading's
start. -/
theorem extract_between_headings (changes version sl : List Char)
    (hl : List TElem) (nm : List Char)
    (subFn : List Char → List Char → List Char → List Char)
    (i e1 a b s2 e2 : Nat) (g2 : Option (Nat × Nat))
    (hsl : sl ≠ [])
    (hfind : findSubstr changes sl = some i)
    (hmatch : rmatch (retainedMsg changes sl i) (formatFn hl nm) 0
        = some (e1, some (a, b)))
    (hver : sliceLC (retainedMsg changes sl i) a b = version)
    (hsearch : rsearch (formatFn hl nm) (retainedMsg changes sl i) e1
        = some (s2, e2, g2)) :
    _parse_changes changes version sl hl [] [] nm subFn
      = .ok (pystrip (sliceLC (retainedMsg changes sl i) e1 s2))
    ∧ pystrip (sliceLC (retainedMsg changes sl i) e1 s2)
        <:+: ((retainedMsg changes sl i).take s2).drop e1 := by
  constructor
  · rw [((start_mark_spec changes version sl hl [] [] nm subFn).2 i hsl hfind).1]
    rw [parseFromMsg, hmatch]
    simp only [hver, check_changes_version_self, hsearch]
    rfl
  · exact pystrip_infix _

/-- Witness for C1: changelog `"S\n1.0\nA\n2.0\nB"` with two version
headings; the extracted note is exactly the trimmed text between
them. -/
theorem extract_between_headings_witness :
    _parse_changes "S\n1.0\nA\n2.0\nB".toList "1.0".toList "S".toList
        [TElem.version] [] [] [] idSubst
      = .ok (pystrip (sliceLC (retainedMsg "S\n1.0\nA\n2.0\nB".toList
          "S".toList 0) 3 6)) :=
  (extract_between_headings "S\n1.0\nA\n2.0\nB".toList "1.0".toList
    "S".toList [TElem.version] [] idSubst 0 3 0 3 6 9 (some (6, 9))
    (by decide) (by decide) (by decide) (by decide) (by decide)).1

/-- C5: when the heading pattern matches once (anchored) and the
search for a second occurrence finds nothing, extraction returns all
text from the end of the first match to the end of the document,
trimmed. -/
theorem extract_single_heading (changes version sl : List Char)
    (hl : List TElem) (nm : List Char)
    (subFn : List Char → List Char → List Char → List Char)
    (i e1 a b : Nat)
    (hsl : sl ≠ [])
    (hfind : findSubstr changes sl = some i)
    (hmatch : rmatch (retainedMsg changes sl i) (formatFn hl nm) 0
        = some (e1, some (a, b)))
    (hver : sliceLC (retainedMsg changes sl i) a b = version)
    (hsearch : rsearch (formatFn hl nm) (retainedMsg changes sl i) e1
        = none) :
    _parse_changes changes version sl hl [] [] nm subFn
      = .ok (pystrip ((retainedMsg changes sl i).drop e1)) := by
  rw [((start_mark_spec changes version sl hl [] [] nm subFn).2 i hsl hfind).1]
  rw [parseFromMsg, hmatch]
  simp only [hver, check_changes_version_self, hsearch]
  rfl

/-- Witness for C5: a changelog with a single heading; the note is
everything after it, trimmed. -/
theorem extract_single_heading_witness :
    _parse_changes "S\n1.0\nbody\n".toList "1.0".toList "S".toList
        [TElem.version] [] [] [] idSubst
      = .ok (pystrip ((retainedMsg "S\n1.0\nbody\n".toList "S".toList 0).drop 3)) :=
  extract_single_heading "S\n1.0\nbody\n".toList "1.0".toList "S".toList
    [TElem.version] [] idSubst 0 3 0 3
    (by decide) (by decide) (by decide) (by decide) (by decide)

/-- Computation of the `= "..."` part of `VERSION_RE` on a
well-formed assignment tail: one space, `=`, one space, a quote, the
value (free of the quote character and newlines), the closing quote,
and arbitrary trailing text. -/
theorem matchEqQuoted_run (q : Char) (v rest : List Char)
    (hq : q = '"' ∨ q = '\'')
    (hv : ∀ c ∈ v, ¬(c = q) ∧ ¬(c = '\n')) :
    matchEqQuoted (' ' :: '=' :: ' ' :: q :: (v ++ q :: rest)) = some v := by
  have hrun : (v ++ q :: rest).takeWhile (fun c => c ≠ q ∧ c ≠ '\n') = v := by
    apply takeWhile_append_run
    · rcases hq with h | h <;> subst h <;> decide
    · intro c hc
      have := hv c hc
      simp [this.1, this.2]
  rcases hq with h | h <;> subst h
  · show (if ((v ++ '"' :: rest).drop
          ((v ++ '"' :: rest).takeWhile (fun c => c ≠ '"' ∧ c ≠ '\n')).length).head?
          = some '"'
        then some ((v ++ '"' :: rest).takeWhile (fun c => c ≠ '"' ∧ c ≠ '\n'))
        else none) = some v
    rw [hrun, List.drop_left]
    rfl
  · show (if ((v ++ '\'' :: rest).drop
          ((v ++ '\'' :: rest).takeWhile (fun c => c ≠ '\'' ∧ c ≠ '\n')).length).head?
          = some '\''
        then some ((v ++ '\'' :: rest).takeWhile (fun c => c ≠ '\'' ∧ c ≠ '\n'))
        else none) = some v
    rw [hrun, List.drop_left]
    rfl

/-- A successful anchored attempt at position 0 is what `search`
returns (position 0 is scanned first and is a line start). -/
theorem findVersionInText_at0 (txt v : List Char)
    (h : matchVersionAssign txt 0 = some v) :
    findVersionInText txt = some v := by
  unfold findVersionInText
  rw [List.range_succ_eq_map, List.findSome?_cons]
  have hls : lineStart txt 0 = true := rfl
  simp [hls, h]

/-- C8: `find_version` on a file whose text carries a
`version = "..."` / `__version__ = '...'` assignment returns exactly
the text between the quotes, with the same result for either quote
character. -/
theorem find_version_quoted (v rest vf : List Char) (hvf : vf ≠ [])
    (hv : ∀ c ∈ v, ¬(c = '"') ∧ ¬(c = '\'') ∧ ¬(c = '\n')) :
    (find_version ("version = \"".toList ++ (v ++ '"' :: rest)) vf [] = .ok v)
  ∧ (find_version ("version = ".toList ++ '\'' :: (v ++ '\'' :: rest)) vf []
      = .ok v)
  ∧ (find_version ("__version__ = \"".toList ++ (v ++ '"' :: rest)) vf []
      = .ok v)
  ∧ (find_version ("__version__ = ".toList ++ '\'' :: (v ++ '\'' :: rest)) vf []
      = .ok v) := by
  have hvd : ∀ c ∈ v, ¬(c = '"') ∧ ¬(c = '\n') := fun c hc =>
    ⟨(hv c hc).1, (hv c hc).2.2⟩
  have hvs : ∀ c ∈ v, ¬(c = '\'') ∧ ¬(c = '\n') := fun c hc =>
    ⟨(hv c hc).2.1, (hv c hc).2.2⟩
  have hfv : ∀ txt : List Char, matchVersionAssign txt 0 = some v →
      find_version txt vf [] = .ok v := by
    intro txt hm
    have hival : findVersionInText txt = some v := findVersionInText_at0 txt v hm
    simp [find_version, hvf, hival]
  refine ⟨hfv _ ?_, hfv _ ?_, hfv _ ?_, hfv _ ?_⟩
  · exact (rfl :
        matchVersionAssign ("version = \"".toList ++ (v ++ '"' :: rest)) 0
          = matchEqQuoted (' ' :: '=' :: ' ' :: '"' :: (v ++ '"' :: rest))).trans
      (matchEqQuoted_run '"' v rest (Or.inl rfl) hvd)
  · exact (rfl :
        matchVersionAssign ("version = ".toList ++ '\'' :: (v ++ '\'' :: rest)) 0
          = matchEqQuoted (' ' :: '=' :: ' ' :: '\'' :: (v ++ '\'' :: rest))).trans
      (matchEqQuoted_run '\'' v rest (Or.inr rfl) hvs)
  · exact (rfl :
        matchVersionAssign ("__version__ = \"".toList ++ (v ++ '"' :: rest)) 0
          = matchEqQuoted (' ' :: '=' :: ' ' :: '"' :: (v ++ '"' :: rest))).trans
      (matchEqQuoted_run '"' v rest (Or.inl rfl) hvd)
  · exact (rfl :
        matchVersionAssign ("__version__ = ".toList ++ '\'' :: (v ++ '\'' :: rest)) 0
          = matchEqQuoted (' ' :: '=' :: ' ' :: '\'' :: (v ++ '\'' :: rest))).trans
      (matchEqQuoted_run '\'' v rest (Or.inr rfl) hvs)

/-- Witness for C8 at the spec's example: content `version = "2.1.0"`
yields exactly `2.1.0`, and the single-quoted variant yields the same
value. -/
theorem find_version_quoted_witness :
    find_version ("version = \"".toList ++ ("2.1.0".toList ++ '"' :: []))
        "f".toList [] = .ok "2.1.0".toList
  ∧ find_version ("version = ".toList ++ '\'' :: ("2.1.0".toList ++ '\'' :: []))
        "f".toList [] = .ok "2.1.0".toList := by
  have h := find_version_quoted "2.1.0".toList [] "f".toList (by decide)
    (by decide)
  exact ⟨h.1, h.2.1⟩

/-- A position strictly inside a `takeWhile` run measured from `i`
carries a character satisfying the predicate. -/
theorem run_char (p : Char → Bool) (s : List Char) (i j : Nat)
    (h : j < ((s.drop i).takeWhile p).length) :
    ∃ c, s.get? (i + j) = some c ∧ p c = true := by
  obtain ⟨c, hc, hpc⟩ := takeWhile_run_pred p (s.drop i) j h
  rw [List.get?_drop] at hc
  exact ⟨c, hc, hpc⟩

/-- C10: every token the version capture group
`[0-9][0-9.abcr]+(\.post[0-9]+)?` can match starts with a digit,
spans at least two characters, continues with characters from
`[0-9.abcr]`, and optionally ends with `.post` followed by digits; in
particular the single-character version `1` in an otherwise
well-formed heading never matches, so extraction fails with the
version-head-mark error. -/
theorem version_token_shape :
    (∀ (s : List Char) (i e : Nat), e ∈ tokenCands s i →
      i + 2 ≤ e
      ∧ (∃ c, s.get? i = some c ∧ c.isDigit = true)
      ∧ ∃ k, 1 ≤ k ∧ k ≤ vcharRun s (i + 1)
          ∧ (∀ j, j < k → ∃ c, s.get? (i + 1 + j) = some c ∧ isVChar c = true)
          ∧ (e = i + 1 + k
             ∨ ((s.drop (i + 1 + k)).take 5 = ['.', 'p', 'o', 's', 't']
                ∧ ∃ m, 1 ≤ m ∧ m ≤ digitRun s (i + 1 + k + 5)
                    ∧ e = i + 1 + k + 5 + m
                    ∧ ∀ j, j < m →
                        ∃ c, s.get? (i + 1 + k + 5 + j) = some c
                          ∧ c.isDigit = true)))
  ∧ _parse_changes "S\n1\nbody".toList "1".toList "S".toList [TElem.version]
      [] [] [] idSubst = .error .headMarkNotFound := by
  refine ⟨?_, rfl⟩
  · intro s i e he
    unfold tokenCands at he
    cases hgi : s.get? i with
    | none =>
      rw [hgi] at he
      exact absurd he (by simp)
    | some c =>
      rw [hgi] at he
      dsimp only at he
      by_cases hc : c.isDigit = true
      · rw [if_pos hc] at he
        rw [List.mem_flatMap] at he
        obtain ⟨d, hd, he⟩ := he
        rw [List.mem_range] at hd
        rcases List.mem_append.mp he with hpost | hbare
        · unfold postCands at hpost
          by_cases hp5 :
              (s.drop (i + 1 + (vcharRun s (i + 1) - d))).take 5
                = ['.', 'p', 'o', 's', 't']
          · rw [if_pos hp5, List.mem_map] at hpost
            obtain ⟨d2, hd2, he2⟩ := hpost
            rw [List.mem_range] at hd2
            refine ⟨by omega, ⟨c, rfl, hc⟩, vcharRun s (i + 1) - d,
              by omega, by omega, ?_, Or.inr ⟨hp5,
                digitRun s (i + 1 + (vcharRun s (i + 1) - d) + 5) - d2,
                by omega, by omega, by omega, ?_⟩⟩
            · intro j hj
              exact run_char isVChar s (i + 1) j (by
                have : vcharRun s (i + 1)
                    = ((s.drop (i + 1)).takeWhile isVChar).length := rfl
                omega)
            · intro j hj
              exact run_char Char.isDigit s (i + 1 + (vcharRun s (i + 1) - d) + 5)
                j (by
                  have : digitRun s (i + 1 + (vcharRun s (i + 1) - d) + 5)
                      = ((s.drop (i + 1 + (vcharRun s (i + 1) - d) + 5)).takeWhile
                          Char.isDigit).length := rfl
                  omega)
          · rw [if_neg hp5] at hpost
            exact absurd hpost (by simp)
        · have he3 : e = i + 1 + (vcharRun s (i + 1) - d) := by simpa using hbare
          refine ⟨by omega, ⟨c, rfl, hc⟩, vcharRun s (i + 1) - d,
            by omega, by omega, ?_, Or.inl he3⟩
          intro j hj
          exact run_char isVChar s (i + 1) j (by
            have : vcharRun s (i + 1)
                = ((s.drop (i + 1)).takeWhile isVChar).length := rfl
            omega)
      · rw [if_neg hc] at he
        exact absurd he (by simp)

/-- Witness for C10: the token `1.0` is produced by the version group
at position 0 of `"1.0"`, and it indeed starts with a digit and spans
at least two characters. -/
theorem version_token_shape_witness :
    (3 ∈ tokenCands "1.0".toList 0) ∧ 0 + 2 ≤ 3 :=
  ⟨by decide, (version_token_shape.1 "1.0".toList 0 3 (by decide)).1⟩

/-! ## Equivalence machinery for the two heading instantiations -/

theorem matchGo_succ_cons (s : List Char) (f : Nat) (e : RElem)
    (rest : List RElem) (i : Nat) :
    matchGo s (f + 1) (e :: rest) i
      = (elemCands e s i).findSome? (fun c =>
          match matchGo s f rest c.1 with
          | some (fin, g2) => some (fin, mergeG c.2 g2)
          | none => none) := rfl

theorem mergeG_none (g : Option (Nat × Nat)) : mergeG none g = g := rfl

theorem option_match_id {α β : Type} (x : Option (α × β)) :
    (match x with | some (a, b) => some (a, b) | none => none) = x := by
  cases x with
  | none => rfl
  | some p => rfl

theorem drop_eq_cons_of_get? :
    ∀ (s : List Char) (i : Nat) (c : Char), s.get? i = some c →
      s.drop i = c :: s.drop (i + 1)
  | [], i, c => by
    intro h
    rw [show (([] : List Char).get? i) = none from by cases i <;> rfl] at h
    exact Option.noConfusion h
  | a :: t, 0, c => by
    intro h
    injection h with h
    subst h
    rfl
  | a :: t, i + 1, c => by
    intro h
    have := drop_eq_cons_of_get? t i c (by simpa using h)
    simpa using this

theorem singleton_prefix_get? (c : Char) (s : List Char) (i : Nat) :
    ([c].isPrefixOf (s.drop i) = true) ↔ s.get? i = some c := by
  cases hgi : s.get? i with
  | none =>
    have hlen : s.length ≤ i := List.get?_eq_none.mp hgi
    rw [List.drop_eq_nil_of_le hlen]
    simp only [List.isPrefixOf]
    simp
  | some a =>
    rw [drop_eq_cons_of_get? s i a hgi]
    simp only [List.isPrefixOf, Bool.and_true, beq_iff_eq]
    constructor
    · intro h
      rw [h]
    · intro h
      injection h with h
      exact h.symm

theorem elemCands_lit (cs s : List Char) (i : Nat) :
    elemCands (RElem.lit cs) s i
      = if cs.isPrefixOf (s.drop i) then [(i + cs.length, none)] else [] := rfl

theorem elemCands_lit_singleton (c : Char) (s : List Char) (i : Nat) :
    elemCands (RElem.lit [c]) s i
      = if [c].isPrefixOf (s.drop i) then [(i + 1, none)] else [] := rfl

theorem elemCands_vtoken (s : List Char) (i : Nat) :
    elemCands RElem.vtoken s i
      = (tokenCands s i).map (fun t => (t, some (i, t))) := rfl

theorem elemCands_vtokenBr (s : List Char) (i : Nat) :
    elemCands RElem.vtokenBr s i
      = if s.get? i = some '[' then
          (tokenCands s (i + 1)).flatMap (fun t =>
            if s.get? t = some ']' then [(t + 1, some (i + 1, t))] else [])
        else [] := rfl

/-- One candidate step of the bracketized literal form against the
`vtokenBr` form: matching `(?P<version>TOKEN)\]` after a candidate
token end agrees with filtering the candidate by a following `]`. -/
theorem bracket_list_aux (s : List Char) (rest : List RElem) (f iv : Nat) :
    ∀ l : List Nat,
      ((l.map (fun t => (t, some (iv, t)))).findSome? (fun c =>
          match matchGo s (f + 1) (RElem.lit [']'] :: rest) c.1 with
          | some (fin, g2) => some (fin, mergeG c.2 g2)
          | none => none))
      = ((l.flatMap (fun t =>
          if s.get? t = some ']' then [(t + 1, some (iv, t))] else [])).findSome?
          (fun c =>
            match matchGo s f rest c.1 with
            | some (fin, g2) => some (fin, mergeG c.2 g2)
            | none => none))
  | [] => rfl
  | t :: ts => by
    have IH := bracket_list_aux s rest f iv ts
    rw [List.map_cons, List.flatMap_cons, List.findSome?_cons]
    by_cases hct : s.get? t = some ']'
    · have hpre : ([']'].isPrefixOf (s.drop t)) = true :=
        (singleton_prefix_get? _ _ _).mpr hct
      have hmg : matchGo s (f + 1) (RElem.lit [']'] :: rest) t
          = match matchGo s f rest (t + 1) with
            | some p => some p
            | none => none := by
        rw [matchGo_succ_cons, elemCands_lit_singleton, hpre]
        rw [if_pos rfl, List.findSome?_cons]
        dsimp only
        cases matchGo s f rest (t + 1) with
        | none => rfl
        | some p => rfl
      have hg : (if s.get? t = some ']'
            then [(t + 1, some (iv, t))]
            else ([] : List (Nat × Option (Nat × Nat)))) = [(t + 1, some (iv, t))] :=
        if_pos hct
      rw [hg, List.singleton_append, List.findSome?_cons]
      simp only [hmg]
      cases matchGo s f rest (t + 1) with
      | none => exact IH
      | some p => rfl
    · have hpre : ([']'].isPrefixOf (s.drop t)) = false := by
        cases hx : [']'].isPrefixOf (s.drop t)
        · rfl
        · exact absurd ((singleton_prefix_get? _ _ _).mp hx) hct
      have hmg : matchGo s (f + 1) (RElem.lit [']'] :: rest) t = none := by
        rw [matchGo_succ_cons, elemCands_lit_singleton, hpre]
        rfl
      have hg : (if s.get? t = some ']'
            then [(t + 1, some (iv, t))]
            else ([] : List (Nat × Option (Nat × Nat)))) = [] := if_neg hct
      rw [hg, List.nil_append]
      simp only [hmg]
      exact IH

/-- The class-based instantiation of `{version}` (a bracketed token,
one compiled element) matches exactly like the function-based
instantiation of a template that wraps `{version}` in literal
brackets (three compiled elements). -/
theorem matchGo_bracket (s : List Char) (rest : List RElem) (f i : Nat) :
    matchGo s (f + 3) (RElem.lit ['['] :: RElem.vtoken :: RElem.lit [']'] :: rest) i
      = matchGo s (f + 1) (RElem.vtokenBr :: rest) i := by
  rw [show f + 3 = (f + 2) + 1 from rfl, matchGo_succ_cons, matchGo_succ_cons,
    elemCands_lit_singleton, elemCands_vtokenBr]
  by_cases hbr : s.get? i = some '['
  · have hpre : (['['].isPrefixOf (s.drop i)) = true :=
      (singleton_prefix_get? _ _ _).mpr hbr
    have hx : matchGo s (f + 2) (RElem.vtoken :: RElem.lit [']'] :: rest) (i + 1)
        = ((tokenCands s (i + 1)).flatMap (fun t =>
            if s.get? t = some ']' then [(t + 1, some (i + 1, t))] else [])).findSome?
            (fun c =>
              match matchGo s f rest c.1 with
              | some (fin, g2) => some (fin, mergeG c.2 g2)
              | none => none) := by
      rw [show f + 2 = (f + 1) + 1 from rfl, matchGo_succ_cons, elemCands_vtoken]
      exact bracket_list_aux s rest f (i + 1) (tokenCands s (i + 1))
    rw [hpre, if_pos rfl, if_pos hbr, List.findSome?_cons]
    dsimp only
    cases hX : matchGo s (f + 2) (RElem.vtoken :: RElem.lit [']'] :: rest) (i + 1) with
    | none =>
      rw [hX] at hx
      dsimp only
      rw [← hx]
      rfl
    | some p =>
      rw [hX] at hx
      dsimp only
      rw [mergeG_none, ← hx]
  · have hpre : (['['].isPrefixOf (s.drop i)) = false := by
      cases hx : ['['].isPrefixOf (s.drop i)
      · rfl
      · exact absurd ((singleton_prefix_get? _ _ _).mp hx) hbr
    rw [hpre, if_neg hbr]
    rfl

/-- Any fuel above the pattern length yields the same result (one
element is consumed per step). -/
theorem matchGo_fuel_irrelevant (s : List Char) :
    ∀ (pat : List RElem) (i f1 f2 : Nat),
      pat.length < f1 → pat.length < f2 →
      matchGo s f1 pat i = matchGo s f2 pat i
  | [], _, _ + 1, _ + 1, _, _ => rfl
  | [], _, 0, _, h1, _ => absurd h1 (by omega)
  | [], _, _ + 1, 0, _, h2 => absurd h2 (by omega)
  | _ :: _, _, 0, _, h1, _ => absurd h1 (by omega)
  | _ :: _, _, _ + 1, 0, _, h2 => absurd h2 (by omega)
  | e :: rest, i, f1 + 1, f2 + 1, h1, h2 => by
    have ih : ∀ j, matchGo s f1 rest j = matchGo s f2 rest j := fun j =>
      matchGo_fuel_irrelevant s rest j f1 f2 (by simpa using h1) (by simpa using h2)
    rw [matchGo_succ_cons, matchGo_succ_cons]
    congr 1
    funext c
    rw [ih]

/-- Head-congruence: equal continuations give equal matches. -/
theorem matchGo_cons_congr (s : List Char) (e : RElem) (ta tb : List RElem)
    (fa fb i : Nat) (h : ∀ j, matchGo s fa ta j = matchGo s fb tb j) :
    matchGo s (fa + 1) (e :: ta) i = matchGo s (fb + 1) (e :: tb) i := by
  rw [matchGo_succ_cons, matchGo_succ_cons]
  congr 1
  funext c
  rw [h]

/-- The heart of the correction to the duplicate-implementation claim:
the class-based instantiation of a template matches exactly like the
function-based instantiation of the bracketized template, at every
position and for sufficient fuel on both sides. -/
theorem matchGo_formats (s nm2 : List Char) :
    ∀ (hl : List TElem) (i f1 f2 : Nat),
      (formatCls hl nm2).length < f1 →
      (formatFn (bracketize hl) nm2).length < f2 →
      matchGo s f1 (formatCls hl nm2) i
        = matchGo s f2 (formatFn (bracketize hl) nm2) i
  | _, _, 0, _, h1, _ => absurd h1 (by omega)
  | _, _, _ + 1, 0, _, h2 => absurd h2 (by omega)
  | [], _, _ + 1, _ + 1, _, _ => rfl
  | TElem.lit cs :: hl, i, f1 + 1, f2 + 1, h1, h2 => by
    have ih : ∀ j, matchGo s f1 (formatCls hl nm2) j
        = matchGo s f2 (formatFn (bracketize hl) nm2) j := fun j =>
      matchGo_formats s nm2 hl j f1 f2
        (by simp only [formatCls, List.length_map, List.length_cons] at h1 ⊢; omega)
        (by simp only [formatFn, bracketize, List.flatMap_cons, List.map_append,
              List.length_append, List.length_map, List.length_cons,
              List.length_nil] at h2 ⊢; omega)
    exact matchGo_cons_congr s (RElem.lit cs) _ _ f1 f2 i ih
  | TElem.date :: hl, i, f1 + 1, f2 + 1, h1, h2 => by
    have ih : ∀ j, matchGo s f1 (formatCls hl nm2) j
        = matchGo s f2 (formatFn (bracketize hl) nm2) j := fun j =>
      matchGo_formats s nm2 hl j f1 f2
        (by simp only [formatCls, List.length_map, List.length_cons] at h1 ⊢; omega)
        (by simp only [formatFn, bracketize, List.flatMap_cons, List.map_append,
              List.length_append, List.length_map, List.length_cons,
              List.length_nil] at h2 ⊢; omega)
    exact matchGo_cons_congr s RElem.date _ _ f1 f2 i ih
  | TElem.pname :: hl, i, f1 + 1, f2 + 1, h1, h2 => by
    have ih : ∀ j, matchGo s f1 (formatCls hl nm2) j
        = matchGo s f2 (formatFn (bracketize hl) nm2) j := fun j =>
      matchGo_formats s nm2 hl j f1 f2
        (by simp only [formatCls, List.length_map, List.length_cons] at h1 ⊢; omega)
        (by simp only [formatFn, bracketize, List.flatMap_cons, List.map_append,
              List.length_append, List.length_map, List.length_cons,
              List.length_nil] at h2 ⊢; omega)
    exact matchGo_cons_congr s (RElem.lit nm2) _ _ f1 f2 i ih
  | TElem.version :: hl, i, f1 + 1, f2 + 1, h1, h2 => by
    have hlen2 : (formatFn (bracketize (TElem.version :: hl)) nm2).length
        = (formatFn (bracketize hl) nm2).length + 3 := by
      simp [formatFn, bracketize]
    have hf2 : (formatFn (bracketize hl) nm2).length + 3 < f2 + 1 := by
      rw [← hlen2]; exact h2
    have ih : ∀ j, matchGo s f1 (formatCls hl nm2) j
        = matchGo s f2 (formatFn (bracketize hl) nm2) j := fun j =>
      matchGo_formats s nm2 hl j f1 f2
        (by simp only [formatCls, List.length_map, List.length_cons] at h1 ⊢; omega)
        (by omega)
    have hstep : ∀ j, matchGo s f1 (formatCls hl nm2) j
        = matchGo s (f2 - 2) (formatFn (bracketize hl) nm2) j := fun j =>
      (ih j).trans (matchGo_fuel_irrelevant s _ j f2 (f2 - 2)
        (by omega) (by omega))
    have step1 : formatCls (TElem.version :: hl) nm2
        = RElem.vtokenBr :: formatCls hl nm2 := rfl
    have step2 : formatFn (bracketize (TElem.version :: hl)) nm2
        = RElem.lit ['['] :: RElem.vtoken :: RElem.lit [']']
            :: formatFn (bracketize hl) nm2 := rfl
    rw [step1, step2]
    calc matchGo s (f1 + 1) (RElem.vtokenBr :: formatCls hl nm2) i
        = matchGo s ((f2 - 2) + 1)
            (RElem.vtokenBr :: formatFn (bracketize hl) nm2) i :=
          matchGo_cons_congr s RElem.vtokenBr _ _ f1 (f2 - 2) i hstep
      _ = matchGo s ((f2 - 2) + 3)
            (RElem.lit ['['] :: RElem.vtoken :: RElem.lit [']']
              :: formatFn (bracketize hl) nm2) i :=
          (matchGo_bracket s _ (f2 - 2) i).symm
      _ = matchGo s (f2 + 1)
            (RElem.lit ['['] :: RElem.vtoken :: RElem.lit [']']
              :: formatFn (bracketize hl) nm2) i := by
          rw [show (f2 - 2) + 3 = f2 + 1 from by omega]

theorem rmatch_formats (s nm2 : List Char) (hl : List TElem) (i : Nat) :
    rmatch s (formatCls hl nm2) i = rmatch s (formatFn (bracketize hl) nm2) i :=
  matchGo_formats s nm2 hl i _ _ (Nat.lt_succ_self _) (Nat.lt_succ_self _)

theorem rsearch_formats (s nm2 : List Char) (hl : List TElem) (pos : Nat) :
    rsearch (formatCls hl nm2) s pos
      = rsearch (formatFn (bracketize hl) nm2) s pos := by
  unfold rsearch
  congr 1
  funext i
  rw [rmatch_formats]

theorem parseFromMsg_formats (msg version nm2 : List Char) (hl : List TElem)
    (frx frp : List Char)
    (subFn : List Char → List Char → List Char → List Char) :
    parseFromMsg msg version (formatCls hl nm2) frx frp subFn
      = parseFromMsg msg version (formatFn (bracketize hl) nm2) frx frp subFn := by
  unfold parseFromMsg
  rw [rmatch_formats]
  simp only [rsearch_formats]

/-- C4 counterexample: on the same inputs (template `{version}`,
declared version `1.0`, changelog heading `1.0` without square
brackets, no git ref check, no fix-issue pair) the class-based
extractor fails with the version-head error while the function-based
extractor succeeds — the two implementations are not equivalent. -/
theorem impl_equiv_counterexample :
    ¬ (Parser_parse "S\n1.0\nbody".toList "1.0".toList "S".toList
          [TElem.version] [] [] [] [] idSubst
        = _parse_changes "S\n1.0\nbody".toList "1.0".toList "S".toList
            [TElem.version] [] [] [] idSubst) := by
  have h1 : Parser_parse "S\n1.0\nbody".toList "1.0".toList "S".toList
      [TElem.version] [] [] [] [] idSubst
      = Except.error Err.headMarkNotFound := rfl
  have h2 : _parse_changes "S\n1.0\nbody".toList "1.0".toList "S".toList
      [TElem.version] [] [] [] idSubst = Except.ok "body".toList := rfl
  intro h
  rw [h1, h2] at h
  exact Except.noConfusion h

/-- C4 (amended): the two extractors run the same pipeline and differ
only in the version placeholder's instantiation — `Parser.parse` wraps
the version token in literal square brackets.  With no git ref check
and a consistent fix-issue pair, `Parser.parse` on a template is
exactly `_parse_changes` on the same template with every `{version}`
wrapped in literal `[` `]`. -/
theorem impl_equiv_bracketized (changes ctxVersion sl : List Char)
    (hl : List TElem) (frx frp nm2 : List Char)
    (subFn : List Char → List Char → List Char → List Char)
    (hfix : (frx = []) ↔ (frp = [])) :
    Parser_parse changes ctxVersion sl hl frx frp [] nm2 subFn
      = _parse_changes changes ctxVersion sl (bracketize hl) frx frp nm2 subFn := by
  have hcond : ¬ ((frx ≠ [] ∧ frp = []) ∨ (frx = [] ∧ frp ≠ [])) := by
    intro h
    rcases h with ⟨hx1, hx2⟩ | ⟨hx1, hx2⟩
    · exact hx1 (hfix.mpr hx2)
    · exact hx2 (hfix.mp hx1)
  unfold Parser_parse _parse_changes
  rw [if_neg hcond]
  show (if sl = [] then Except.error Err.emptySeparator
      else match findSubstr changes sl with
        | none => Except.error Err.startMarkNotFound
        | some i => parseFromMsg (pystrip (changes.drop (i + sl.length)))
            ctxVersion (formatCls hl nm2) frx frp subFn)
    = (if sl = [] then Except.error Err.emptySeparator
      else match findSubstr changes sl with
        | none => Except.error Err.startMarkNotFound
        | some i => parseFromMsg (pystrip (changes.drop (i + sl.length)))
            ctxVersion (formatFn (bracketize hl) nm2) frx frp subFn)
  by_cases hsl : sl = []
  · subst hsl
    rfl
  · rw [if_neg hsl, if_neg hsl]
    cases findSubstr changes sl with
    | none => rfl
    | some i => exact parseFromMsg_formats _ _ _ _ _ _ _

/-- Witness for the amended C4: on a bracketed heading `[1.0]` the
class-based extractor on `{version}` and the function-based extractor
on the bracketized template agree. -/
theorem impl_equiv_bracketized_witness :
    Parser_parse "S\n[1.0]\nA".toList "1.0".toList "S".toList [TElem.version]
        [] [] [] [] idSubst
      = _parse_changes "S\n[1.0]\nA".toList "1.0".toList "S".toList
          (bracketize [TElem.version]) [] [] [] idSubst :=
  impl_equiv_bracketized "S\n[1.0]\nA".toList "1.0".toList "S".toList
    [TElem.version] [] [] [] idSubst Iff.rfl

end GetReleasenote
